import Mathlib

/-!
Shallow embedding of the random-access Esri ASCII grid reader
(`src/ascii_file.rs`).  Machine floats are modelled as exact rationals
(the structure of every computation is preserved; IEEE rounding is not
modelled), `usize` as `Nat` with explicit wrap-around (`% 2^64`) where the
source performs an unchecked subtraction, and the text stream as the list
of physical data lines together with their byte lengths, so that byte
offsets (`stream_position`, seeks, the row index) are genuine numbers.
A `seek` to a byte position that is not the first byte of a line never
happens in any reachable state; the embedding maps that unreachable case
to the `panicked` outcome.
-/

/-- Rust `usize::MAX + 1`; used to model unchecked (wrapping) usize arithmetic. -/
def USIZE : Nat := 2 ^ 64

/-- Wrapping usize subtraction, as in release-mode `a - b` on `usize`. -/
def usizeSub (a b : Nat) : Nat := (a + USIZE - b % USIZE) % USIZE

/-- The two `std::io::ErrorKind`s the reader constructs. -/
inductive ErrKind : Type where
  | invalidInput
  | unexpectedEof
deriving DecidableEq

/-- Outcome of a fallible Rust computation: `Ok`, `Err`, or a panic
(`unwrap` on `None`/`Err`, index out of range). -/
inductive RResult (α : Type) : Type where
  | ok (a : α)
  | error (e : ErrKind)
  | panicked
deriving DecidableEq

def RResult.map {α β : Type} (f : α → β) : RResult α → RResult β
  | .ok a => .ok (f a)
  | .error e => .error e
  | .panicked => .panicked

/-- One physical data line: its parsed cell values and its length in bytes
(excluding the terminating newline). -/
structure DataLine : Type where
  values : List ℚ
  byteLen : Nat
deriving DecidableEq

/-- Modelled from the spec: `EsriASCIIRasterHeader` lives in `src/header.rs`,
which is not part of the provided sources.  Per the spec's data model the
header stores `ncols, nrows > 0`, a square `cellsize > 0` and an origin;
the corner/center mode flag is folded into the stored origin
`(min_x, min_y)`, the representative coordinate of cell `(0, 0)`, so that
`max_x = min_x + (ncols-1)*cellsize` and symmetrically for `y`
(spec section 8: both bounds equal `(n-1)*cellsize` added to the origin). -/
structure EsriASCIIRasterHeader : Type where
  ncols : Nat
  nrows : Nat
  min_x : ℚ
  min_y : ℚ
  cellsize : ℚ
deriving DecidableEq

namespace EsriASCIIRasterHeader

def num_rows (h : EsriASCIIRasterHeader) : Nat := h.nrows

def num_cols (h : EsriASCIIRasterHeader) : Nat := h.ncols

def cell_size (h : EsriASCIIRasterHeader) : ℚ := h.cellsize

def max_x (h : EsriASCIIRasterHeader) : ℚ := h.min_x + ((h.ncols - 1 : ℕ) : ℚ) * h.cellsize

def max_y (h : EsriASCIIRasterHeader) : ℚ := h.min_y + ((h.nrows - 1 : ℕ) : ℚ) * h.cellsize

/-- Modelled from the spec: coordinate-to-index mapping.  `col = floor((x -
min_x)/cellsize)`, `row = floor((y - min_y)/cellsize)`, clamped into
`[0, ncols)` and `[0, nrows)`; points strictly outside the bounding box
have no mapping.  Returns `(col, row)`, the order destructured by `get`. -/
def index_of (h : EsriASCIIRasterHeader) (x y : ℚ) : Option (Nat × Nat) :=
  if x < h.min_x ∨ x > h.max_x ∨ y < h.min_y ∨ y > h.max_y then none
  else
    some (min (Int.toNat ⌊(x - h.min_x) / h.cellsize⌋) (h.ncols - 1),
          min (Int.toNat ⌊(y - h.min_y) / h.cellsize⌋) (h.nrows - 1))

/-- Modelled from the spec: inverse mapping, returning the representative
coordinate of cell `(row, col)` (bottom-up row indexing). -/
def index_pos (h : EsriASCIIRasterHeader) (row col : Nat) : Option (ℚ × ℚ) :=
  if row < h.nrows ∧ col < h.ncols then
    some (h.min_x + (col : ℚ) * h.cellsize, h.min_y + (row : ℚ) * h.cellsize)
  else none

end EsriASCIIRasterHeader

/-- Byte offset of the start of the `i`-th line of `ls`, when the first
line of `ls` starts at byte `d`; each line occupies `byteLen + 1` bytes
(including the newline).  For `i = ls.length` this is the end-of-data
offset. -/
def lineOffset : Nat → List DataLine → Nat → Nat
  | d, _, 0 => d
  | d, [], _ + 1 => d
  | d, l :: rest, i + 1 => lineOffset (d + l.byteLen + 1) rest i

/-- Model of `seek(SeekFrom::Start(p))` followed by `lines().next()` on the
data section: `cur` is the byte offset of the head of `ls`.  Returns the
line starting exactly at byte `p` together with the stream position after
reading it.  (A `p` inside a line never arises in a reachable state.) -/
def seekLine (p : Nat) : Nat → List DataLine → Option (DataLine × Nat)
  | _, [] => none
  | cur, l :: rest =>
    if p = cur then some (l, cur + l.byteLen + 1) else seekLine p (cur + l.byteLen + 1) rest

/-- The parsed values of the `i`-th physical line (top-down), `[]` if absent. -/
def rowValues (ls : List DataLine) (i : Nat) : List ℚ :=
  match ls[i]? with
  | some l => l.values
  | none => []

/-- The `j`-th value of the `i`-th physical line (top-down), defaulting to 0. -/
def physValue (ls : List DataLine) (i j : Nat) : ℚ := ((rowValues ls i)[j]?).getD 0

/-- Model of the `HashMap<usize, Vec<f64>>` lookup on the row cache. -/
def cacheLookup : List (Nat × List ℚ) → Nat → Option (List ℚ)
  | [], _ => none
  | (k, v) :: rest, row => if k = row then some v else cacheLookup rest row

/-- State of `EsriASCIIReader<R>`: the parsed header, the data section as a
list of physical lines starting at byte `dataStart`, the two caches, and
the read position of the underlying stream. -/
structure EsriASCIIReader : Type where
  header : EsriASCIIRasterHeader
  fileLines : List DataLine
  dataStart : Nat
  lineCache : List (Nat × List ℚ)
  lineStartCache : List Nat
  streamPos : Nat
deriving DecidableEq

/-- `EsriASCIIReader::build_index`.  Note the guard in the source checks
`self.line_cache.is_empty()` (the parsed-row cache), not the offset index
itself.  The loop records `stream_position()` before each of the first
`nrows` lines and then reverses the vector; it fails with
`UnexpectedEof` when the data section has fewer than `nrows` lines. -/
def build_index (r : EsriASCIIReader) : RResult Unit × EsriASCIIReader :=
  if r.lineCache.isEmpty then
    if r.header.num_rows ≤ r.fileLines.length then
      (.ok (), { r with
        lineStartCache :=
          ((List.range r.header.num_rows).map (lineOffset r.dataStart r.fileLines)).reverse,
        streamPos := lineOffset r.dataStart r.fileLines r.header.num_rows })
    else
      (.error .unexpectedEof,
        { r with streamPos := lineOffset r.dataStart r.fileLines r.fileLines.length })
  else
    (.ok (), r)

/-- `EsriASCIIReader::get_index`.  Bounds check first; then the cached row,
the indexed seek, or the linear scan from `data_start` to physical line
`nrows - 1 - row`.  The parsed row is inserted into the cache before the
requested column is read; `values[col]` on a short row is a panic. -/
def get_index (r : EsriASCIIReader) (row col : Nat) : RResult ℚ × EsriASCIIReader :=
  if r.header.nrows ≤ row ∨ r.header.ncols ≤ col then
    (.error .invalidInput, r)
  else
    match cacheLookup r.lineCache row with
    | some values =>
      match values[col]? with
      | some v => (.ok v, r)
      | none => (.panicked, r)
    | none =>
      if r.lineStartCache.isEmpty then
        match r.fileLines[r.header.nrows - 1 - row]? with
        | none => (.panicked, r)
        | some dl =>
          let r2 := { r with
            lineCache := (row, dl.values) :: r.lineCache,
            streamPos := lineOffset r.dataStart r.fileLines (r.header.nrows - 1 - row + 1) }
          match dl.values[col]? with
          | some v => (.ok v, r2)
          | none => (.panicked, r2)
      else
        match r.lineStartCache[row]? with
        | none => (.panicked, r)
        | some p =>
          match seekLine p r.dataStart r.fileLines with
          | none => (.panicked, r)
          | some (dl, pos2) =>
            let r2 := { r with
              lineCache := (row, dl.values) :: r.lineCache,
              streamPos := pos2 }
            match dl.values[col]? with
            | some v => (.ok v, r2)
            | none => (.panicked, r2)

/-- `EsriASCIIReader::get`: maps the coordinate through `index_of` (absence
for out-of-bounds), then `self.get_index(row, col).unwrap()`. -/
def EsriASCIIReader.get (r : EsriASCIIReader) (x y : ℚ) : RResult (Option ℚ) × EsriASCIIReader :=
  match r.header.index_of x y with
  | none => (.ok none, r)
  | some (col, row) =>
    match get_index r row col with
    | (.ok v, r2) => (.ok (some v), r2)
    | (.error _, r2) => (.panicked, r2)
    | (.panicked, r2) => (.panicked, r2)

/-- `EsriASCIIReader::get_interpolate`.  The clamp bounds `ncols - 2` and
`nrows - 2` are unchecked usize subtractions (wrap-around), every
`get_index` result is unwrapped, and the bilinear blend is returned in the
source's own association order. -/
def get_interpolate (r : EsriASCIIReader) (x y : ℚ) : RResult (Option ℚ) × EsriASCIIReader :=
  if x < r.header.min_x ∨ x > r.header.max_x ∨ y < r.header.min_y ∨ y > r.header.max_y then
    (.ok none, r)
  else
    let ll_col := min (Int.toNat ⌊(x - r.header.min_x) / r.header.cellsize⌋)
      (usizeSub r.header.ncols 2)
    let ll_row := min (Int.toNat ⌊(y - r.header.min_y) / r.header.cellsize⌋)
      (usizeSub r.header.nrows 2)
    match r.header.index_pos ll_row ll_col with
    | none => (.panicked, r)
    | some (ll_x, ll_y) =>
      match get_index r ll_row ll_col with
      | (.ok ll, r1) =>
        match get_index r1 ll_row (ll_col + 1) with
        | (.ok lr, r2) =>
          match get_index r2 (ll_row + 1) ll_col with
          | (.ok ul, r3) =>
            match get_index r3 (ll_row + 1) (ll_col + 1) with
            | (.ok ur, r4) =>
              let vert_weight := (x - ll_x) / r.header.cell_size
              let horiz_weight := (y - ll_y) / r.header.cell_size
              let ll_weight := (1 - vert_weight) * (1 - horiz_weight)
              let ur_weight := vert_weight * horiz_weight
              let ul_weight := (1 - vert_weight) * horiz_weight
              let lr_weight := vert_weight * (1 - horiz_weight)
              (.ok (some (ul * ul_weight + ur * ur_weight + ll * ll_weight + lr * lr_weight)), r4)
            | (_, r4) => (.panicked, r4)
          | (_, r3) => (.panicked, r3)
        | (_, r2) => (.panicked, r2)
      | (_, r1) => (.panicked, r1)

/-- State of `EsriASCIIRasterIntoIterator<R>`: the not-yet-read physical
lines, the values remaining in the current line, and the physical row /
column counters. -/
structure IterState : Type where
  header : EsriASCIIRasterHeader
  lines : List DataLine
  line : List ℚ
  row : Nat
  col : Nat
deriving DecidableEq

/-- `IntoIterator::into_iter`: rewinds to `data_start` and eagerly reads and
parses the first data line (`lines.next().unwrap().unwrap()`). -/
def into_iter (r : EsriASCIIReader) : RResult IterState :=
  match r.fileLines with
  | [] => .panicked
  | l :: rest => .ok ⟨r.header, rest, l.values, 0, 0⟩

/-- The tail of `Iterator::next` for the raster iterator: emit the next
value of the current line (panicking if the line is exhausted early),
reporting the row in bottom-up raster indexing. -/
def iterEmit (st : IterState) : RResult (Option ((Nat × Nat × ℚ) × IterState)) :=
  match st.line with
  | [] => .panicked
  | v :: vs =>
    .ok (some ((st.header.nrows - 1 - st.row, st.col, v),
      { st with col := st.col + 1, line := vs }))

/-- `Iterator::next` for `EsriASCIIRasterIntoIterator`: on column overflow
advance to the next physical line (or finish after `nrows` lines), then
emit. -/
def iterNext (st : IterState) : RResult (Option ((Nat × Nat × ℚ) × IterState)) :=
  if st.header.ncols ≤ st.col then
    if st.header.nrows ≤ st.row + 1 then .ok none
    else
      match st.lines with
      | [] => .panicked
      | l :: rest => iterEmit { st with lines := rest, line := l.values, row := st.row + 1, col := 0 }
  else iterEmit st

/-- Drive the iterator up to `fuel` steps, collecting the yielded triples;
stops at the first `none`. -/
def collect : Nat → IterState → RResult (List (Nat × Nat × ℚ))
  | 0, _ => .ok []
  | fuel + 1, st =>
    match iterNext st with
    | .ok none => .ok []
    | .ok (some (x, st2)) => RResult.map (fun xs => x :: xs) (collect fuel st2)
    | .error e => .error e
    | .panicked => .panicked

/-! ### Well-formedness, invariants, and helper lemmas -/

/-- A well-formed grid: positive dimensions (header invariant of the spec),
exactly `nrows` physical data lines, each parsing into `ncols` values. -/
def WellFormedData (hdr : EsriASCIIRasterHeader) (ls : List DataLine) : Prop :=
  0 < hdr.nrows ∧ 0 < hdr.ncols ∧ ls.length = hdr.nrows ∧
    ∀ l ∈ ls, l.values.length = hdr.ncols

instance (hdr : EsriASCIIRasterHeader) (ls : List DataLine) :
    Decidable (WellFormedData hdr ls) := by
  unfold WellFormedData; infer_instance

/-- The row-offset index that a successful fresh `build_index` constructs:
offsets of physical lines `0, …, nrows-1`, reversed. -/
def canonicalIndex (hdr : EsriASCIIRasterHeader) (d : Nat) (ls : List DataLine) : List Nat :=
  ((List.range hdr.nrows).map (lineOffset d ls)).reverse

/-- Every cached row holds exactly the parsed values of its physical line. -/
def CacheOK (hdr : EsriASCIIRasterHeader) (ls : List DataLine)
    (cache : List (Nat × List ℚ)) : Prop :=
  ∀ p ∈ cache, p.2 = rowValues ls (hdr.nrows - 1 - p.1)

/-- Reachable-state invariant of the reader: well-formed data, a correct
row cache, and a row index that is either unbuilt or canonical. -/
def ReaderInv (r : EsriASCIIReader) : Prop :=
  WellFormedData r.header r.fileLines ∧
  CacheOK r.header r.fileLines r.lineCache ∧
  (r.lineStartCache = [] ∨ r.lineStartCache = canonicalIndex r.header r.dataStart r.fileLines)

theorem cacheLookup_mem {c : List (Nat × List ℚ)} {k : Nat} {v : List ℚ}
    (h : cacheLookup c k = some v) : (k, v) ∈ c := by
  induction c with
  | nil => simp [cacheLookup] at h
  | cons p rest ih =>
    obtain ⟨a, b⟩ := p
    by_cases hk : a = k
    · subst hk
      simp [cacheLookup] at h
      simp [h]
    · simp [cacheLookup, hk] at h
      exact List.mem_cons_of_mem _ (ih h)

theorem le_lineOffset (cur : Nat) (ls : List DataLine) (i : Nat) :
    cur ≤ lineOffset cur ls i := by
  induction ls generalizing cur i with
  | nil => cases i <;> simp [lineOffset]
  | cons l rest ih =>
    cases i with
    | zero => simp [lineOffset]
    | succ j =>
      calc cur ≤ cur + l.byteLen + 1 := by omega
        _ ≤ lineOffset (cur + l.byteLen + 1) rest j := ih _ _

theorem seekLine_lineOffset {ls : List DataLine} {i : Nat} {dl : DataLine}
    (h : ls[i]? = some dl) (cur : Nat) :
    seekLine (lineOffset cur ls i) cur ls = some (dl, lineOffset cur ls (i + 1)) := by
  induction ls generalizing cur i with
  | nil => simp at h
  | cons l rest ih =>
    cases i with
    | zero =>
      simp at h
      subst h
      simp [lineOffset, seekLine]
    | succ j =>
      simp only [List.getElem?_cons_succ] at h
      have hge : cur + l.byteLen + 1 ≤ lineOffset (cur + l.byteLen + 1) rest j :=
        le_lineOffset _ _ _
      have hne : lineOffset cur (l :: rest) (j + 1) ≠ cur := by
        show lineOffset (cur + l.byteLen + 1) rest j ≠ cur
        omega
      simp only [seekLine, if_neg hne]
      exact ih h (cur + l.byteLen + 1)

theorem canonicalIndex_length (hdr : EsriASCIIRasterHeader) (d : Nat) (ls : List DataLine) :
    (canonicalIndex hdr d ls).length = hdr.nrows := by
  simp [canonicalIndex]

theorem canonicalIndex_getElem {hdr : EsriASCIIRasterHeader} {d : Nat} {ls : List DataLine}
    {row : Nat} (h : row < hdr.nrows) :
    (canonicalIndex hdr d ls)[row]? = some (lineOffset d ls (hdr.nrows - 1 - row)) := by
  unfold canonicalIndex
  rw [List.getElem?_reverse (by simpa using h)]
  simp only [List.length_map, List.length_range]
  rw [List.getElem?_map, List.getElem?_range (by omega)]
  rfl

theorem rowValues_of_getElem {ls : List DataLine} {i : Nat} {dl : DataLine}
    (h : ls[i]? = some dl) : rowValues ls i = dl.values := by
  simp [rowValues, h]

theorem rowValues_length {hdr : EsriASCIIRasterHeader} {ls : List DataLine}
    (hWF : WellFormedData hdr ls) {i : Nat} (hi : i < hdr.nrows) :
    (rowValues ls i).length = hdr.ncols := by
  obtain ⟨-, -, hlen, hall⟩ := hWF
  have hi' : i < ls.length := by omega
  have := List.getElem?_eq_getElem hi'
  rw [rowValues_of_getElem this]
  exact hall _ (List.getElem_mem hi')

theorem physValue_of_getElem {ls : List DataLine} {i j : Nat} {v : ℚ}
    (h : (rowValues ls i)[j]? = some v) : physValue ls i j = v := by
  simp [physValue, h]

theorem rowValues_getElem_physValue {ls : List DataLine} {i col : Nat}
    (h : col < (rowValues ls i).length) :
    (rowValues ls i)[col]? = some (physValue ls i col) := by
  rw [List.getElem?_eq_getElem h]
  simp [physValue, List.getElem?_eq_getElem h]

/-- The value/error behaviour of `get_index` on any reachable reader state:
a bounds error outside the raster, the stored cell value inside. -/
def canonGetIndex (hdr : EsriASCIIRasterHeader) (ls : List DataLine) (row col : Nat) :
    RResult ℚ :=
  if hdr.nrows ≤ row ∨ hdr.ncols ≤ col then .error .invalidInput
  else .ok (physValue ls (hdr.nrows - 1 - row) col)

theorem get_index_canon (r : EsriASCIIReader) (row col : Nat) (hInv : ReaderInv r) :
    (get_index r row col).1 = canonGetIndex r.header r.fileLines row col ∧
    ReaderInv (get_index r row col).2 ∧
    (get_index r row col).2.header = r.header ∧
    (get_index r row col).2.fileLines = r.fileLines ∧
    (get_index r row col).2.dataStart = r.dataStart ∧
    (get_index r row col).2.lineStartCache = r.lineStartCache := by
  obtain ⟨hWF, hCache, hIdx⟩ := hInv
  by_cases hb : r.header.nrows ≤ row ∨ r.header.ncols ≤ col
  · have hstep : get_index r row col = (.error .invalidInput, r) := by
      simp only [get_index, if_pos hb]
    rw [hstep]
    exact ⟨by simp [canonGetIndex, if_pos hb], ⟨hWF, hCache, hIdx⟩, rfl, rfl, rfl, rfl⟩
  · push_neg at hb
    obtain ⟨hrow, hcol⟩ := hb
    have hb' : ¬(r.header.nrows ≤ row ∨ r.header.ncols ≤ col) := by omega
    have hnpos : 0 < r.header.nrows := hWF.1
    have hi : r.header.nrows - 1 - row < r.header.nrows := by omega
    have hvlen : col < (rowValues r.fileLines (r.header.nrows - 1 - row)).length := by
      rw [rowValues_length hWF hi]; exact hcol
    have hcanon : canonGetIndex r.header r.fileLines row col =
        .ok (physValue r.fileLines (r.header.nrows - 1 - row) col) := by
      simp only [canonGetIndex, if_neg hb']
    rw [hcanon]
    match hc : cacheLookup r.lineCache row with
    | some values =>
      have hvals : values = rowValues r.fileLines (r.header.nrows - 1 - row) :=
        hCache _ (cacheLookup_mem hc)
      have hsome : values[col]? = some (physValue r.fileLines (r.header.nrows - 1 - row) col) := by
        rw [hvals]; exact rowValues_getElem_physValue hvlen
      have hstep : get_index r row col =
          (.ok (physValue r.fileLines (r.header.nrows - 1 - row) col), r) := by
        simp only [get_index, if_neg hb', hc, hsome]
      rw [hstep]
      exact ⟨rfl, ⟨hWF, hCache, hIdx⟩, rfl, rfl, rfl, rfl⟩
    | none =>
      have hlslen : r.header.nrows - 1 - row < r.fileLines.length := by
        rw [hWF.2.2.1]; exact hi
      obtain ⟨dl, hdl⟩ : ∃ dl, r.fileLines[r.header.nrows - 1 - row]? = some dl := by
        rw [List.getElem?_eq_getElem hlslen]
        exact ⟨_, rfl⟩
      have hdlvals : dl.values = rowValues r.fileLines (r.header.nrows - 1 - row) :=
        (rowValues_of_getElem hdl).symm
      have hsome : dl.values[col]? =
          some (physValue r.fileLines (r.header.nrows - 1 - row) col) := by
        rw [hdlvals]; exact rowValues_getElem_physValue hvlen
      have hCache2 : CacheOK r.header r.fileLines ((row, dl.values) :: r.lineCache) := by
        intro p hp
        rcases List.mem_cons.mp hp with hp | hp
        · subst hp; exact hdlvals
        · exact hCache _ hp
      rcases hIdx with hempty | hfull
      · have hEmpty : r.lineStartCache.isEmpty = true := by simp [hempty]
        have hstep : get_index r row col =
            (.ok (physValue r.fileLines (r.header.nrows - 1 - row) col),
             { r with lineCache := (row, dl.values) :: r.lineCache,
                      streamPos := lineOffset r.dataStart r.fileLines
                        (r.header.nrows - 1 - row + 1) }) := by
          simp only [get_index, if_neg hb', hc, hEmpty, if_true, hdl, hsome]
        rw [hstep]
        exact ⟨rfl, ⟨hWF, hCache2, Or.inl hempty⟩, rfl, rfl, rfl, rfl⟩
      · have hne : r.lineStartCache ≠ [] := by
          rw [hfull]
          intro hcontra
          have hlen := canonicalIndex_length r.header r.dataStart r.fileLines
          rw [hcontra] at hlen
          simp at hlen
          omega
        have hEmpty : r.lineStartCache.isEmpty = false := List.isEmpty_eq_false.mpr hne
        have hidxget : r.lineStartCache[row]? =
            some (lineOffset r.dataStart r.fileLines (r.header.nrows - 1 - row)) := by
          rw [hfull]; exact canonicalIndex_getElem hrow
        have hseek : seekLine (lineOffset r.dataStart r.fileLines (r.header.nrows - 1 - row))
            r.dataStart r.fileLines =
            some (dl, lineOffset r.dataStart r.fileLines (r.header.nrows - 1 - row + 1)) :=
          seekLine_lineOffset hdl r.dataStart
        have hstep : get_index r row col =
            (.ok (physValue r.fileLines (r.header.nrows - 1 - row) col),
             { r with lineCache := (row, dl.values) :: r.lineCache,
                      streamPos := lineOffset r.dataStart r.fileLines
                        (r.header.nrows - 1 - row + 1) }) := by
          simp only [get_index, if_neg hb', hc, hEmpty, Bool.false_eq_true, if_false,
            hidxget, hseek, hsome]
        rw [hstep]
        exact ⟨rfl, ⟨hWF, hCache2, Or.inr hfull⟩, rfl, rfl, rfl, rfl⟩

/-- The value behaviour of `get` on any reachable reader state. -/
def canonGet (hdr : EsriASCIIRasterHeader) (ls : List DataLine) (x y : ℚ) :
    RResult (Option ℚ) :=
  match hdr.index_of x y with
  | none => .ok none
  | some (col, row) =>
    match canonGetIndex hdr ls row col with
    | .ok v => .ok (some v)
    | _ => .panicked

theorem get_canon (r : EsriASCIIReader) (x y : ℚ) (hInv : ReaderInv r) :
    (r.get x y).1 = canonGet r.header r.fileLines x y ∧ ReaderInv (r.get x y).2 := by
  unfold EsriASCIIReader.get canonGet
  match hio : r.header.index_of x y with
  | none => exact ⟨by trivial, hInv⟩
  | some (col, row) =>
    dsimp only
    obtain ⟨hval, hInv2, -⟩ := get_index_canon r row col hInv
    match hg : get_index r row col with
    | (.ok v, r2) =>
      rw [hg] at hval hInv2
      dsimp only at hval hInv2
      dsimp only
      rw [← hval]
      exact ⟨by trivial, hInv2⟩
    | (.error e, r2) =>
      rw [hg] at hval hInv2
      dsimp only at hval hInv2
      dsimp only
      rw [← hval]
      exact ⟨by trivial, hInv2⟩
    | (.panicked, r2) =>
      rw [hg] at hval hInv2
      dsimp only at hval hInv2
      dsimp only
      rw [← hval]
      exact ⟨by trivial, hInv2⟩

/-- The value behaviour of `get_interpolate` on any reachable reader state. -/
def canonInterp (hdr : EsriASCIIRasterHeader) (ls : List DataLine) (x y : ℚ) :
    RResult (Option ℚ) :=
  if x < hdr.min_x ∨ x > hdr.max_x ∨ y < hdr.min_y ∨ y > hdr.max_y then .ok none
  else
    let ll_col := min (Int.toNat ⌊(x - hdr.min_x) / hdr.cellsize⌋) (usizeSub hdr.ncols 2)
    let ll_row := min (Int.toNat ⌊(y - hdr.min_y) / hdr.cellsize⌋) (usizeSub hdr.nrows 2)
    match hdr.index_pos ll_row ll_col with
    | none => .panicked
    | some (ll_x, ll_y) =>
      match canonGetIndex hdr ls ll_row ll_col with
      | .ok ll =>
        match canonGetIndex hdr ls ll_row (ll_col + 1) with
        | .ok lr =>
          match canonGetIndex hdr ls (ll_row + 1) ll_col with
          | .ok ul =>
            match canonGetIndex hdr ls (ll_row + 1) (ll_col + 1) with
            | .ok ur =>
              let vert_weight := (x - ll_x) / hdr.cell_size
              let horiz_weight := (y - ll_y) / hdr.cell_size
              let ll_weight := (1 - vert_weight) * (1 - horiz_weight)
              let ur_weight := vert_weight * horiz_weight
              let ul_weight := (1 - vert_weight) * horiz_weight
              let lr_weight := vert_weight * (1 - horiz_weight)
              .ok (some (ul * ul_weight + ur * ur_weight + ll * ll_weight + lr * lr_weight))
            | _ => .panicked
          | _ => .panicked
        | _ => .panicked
      | _ => .panicked

theorem get_interpolate_canon (r : EsriASCIIReader) (x y : ℚ) (hInv : ReaderInv r) :
    (get_interpolate r x y).1 = canonInterp r.header r.fileLines x y ∧
    ReaderInv (get_interpolate r x y).2 := by
  unfold get_interpolate canonInterp
  by_cases hout : x < r.header.min_x ∨ x > r.header.max_x ∨
      y < r.header.min_y ∨ y > r.header.max_y
  · simp only [if_pos hout]
    exact ⟨by trivial, hInv⟩
  · simp only [if_neg hout]
    set ll_col := min (Int.toNat ⌊(x - r.header.min_x) / r.header.cellsize⌋)
      (usizeSub r.header.ncols 2) with hllc
    set ll_row := min (Int.toNat ⌊(y - r.header.min_y) / r.header.cellsize⌋)
      (usizeSub r.header.nrows 2) with hllr
    match hip : r.header.index_pos ll_row ll_col with
    | none => exact ⟨by trivial, hInv⟩
    | some (ll_x, ll_y) =>
      dsimp only
      obtain ⟨hval1, hInv1, hh1, hf1, -⟩ := get_index_canon r ll_row ll_col hInv
      match hg1 : get_index r ll_row ll_col with
      | (.error e, r1) =>
        rw [hg1] at hval1 hInv1
        dsimp only at hval1 hInv1
        dsimp only
        rw [← hval1]
        exact ⟨by trivial, hInv1⟩
      | (.panicked, r1) =>
        rw [hg1] at hval1 hInv1
        dsimp only at hval1 hInv1
        dsimp only
        rw [← hval1]
        exact ⟨by trivial, hInv1⟩
      | (.ok ll, r1) =>
        rw [hg1] at hval1 hInv1 hh1 hf1
        dsimp only at hval1 hInv1 hh1 hf1
        dsimp only
        rw [← hval1]
        obtain ⟨hval2, hInv2, hh2, hf2, -⟩ := get_index_canon r1 ll_row (ll_col + 1) hInv1
        rw [hh1, hf1] at hval2
        match hg2 : get_index r1 ll_row (ll_col + 1) with
        | (.error e, r2) =>
          rw [hg2] at hval2 hInv2
          dsimp only at hval2 hInv2
          dsimp only
          rw [← hval2]
          exact ⟨by trivial, hInv2⟩
        | (.panicked, r2) =>
          rw [hg2] at hval2 hInv2
          dsimp only at hval2 hInv2
          dsimp only
          rw [← hval2]
          exact ⟨by trivial, hInv2⟩
        | (.ok lr, r2) =>
          rw [hg2] at hval2 hInv2 hh2 hf2
          dsimp only at hval2 hInv2 hh2 hf2
          rw [hh1] at hh2
          rw [hf1] at hf2
          dsimp only
          rw [← hval2]
          obtain ⟨hval3, hInv3, hh3, hf3, -⟩ := get_index_canon r2 (ll_row + 1) ll_col hInv2
          rw [hh2, hf2] at hval3
          match hg3 : get_index r2 (ll_row + 1) ll_col with
          | (.error e, r3) =>
            rw [hg3] at hval3 hInv3
            dsimp only at hval3 hInv3
            dsimp only
            rw [← hval3]
            exact ⟨by trivial, hInv3⟩
          | (.panicked, r3) =>
            rw [hg3] at hval3 hInv3
            dsimp only at hval3 hInv3
            dsimp only
            rw [← hval3]
            exact ⟨by trivial, hInv3⟩
          | (.ok ul, r3) =>
            rw [hg3] at hval3 hInv3 hh3 hf3
            dsimp only at hval3 hInv3 hh3 hf3
            rw [hh2] at hh3
            rw [hf2] at hf3
            dsimp only
            rw [← hval3]
            obtain ⟨hval4, hInv4, -, -, -⟩ :=
              get_index_canon r3 (ll_row + 1) (ll_col + 1) hInv3
            rw [hh3, hf3] at hval4
            match hg4 : get_index r3 (ll_row + 1) (ll_col + 1) with
            | (.error e, r4) =>
              rw [hg4] at hval4 hInv4
              dsimp only at hval4 hInv4
              dsimp only
              rw [← hval4]
              exact ⟨by trivial, hInv4⟩
            | (.panicked, r4) =>
              rw [hg4] at hval4 hInv4
              dsimp only at hval4 hInv4
              dsimp only
              rw [← hval4]
              exact ⟨by trivial, hInv4⟩
            | (.ok ur, r4) =>
              rw [hg4] at hval4 hInv4
              dsimp only at hval4 hInv4
              dsimp only
              rw [← hval4]
              exact ⟨by trivial, hInv4⟩

theorem usizeSub_two {a : Nat} (h2 : 2 ≤ a) (hU : a < USIZE) : usizeSub a 2 = a - 2 := by
  unfold usizeSub USIZE at *
  omega

theorem usizeSub_one_two : usizeSub 1 2 = USIZE - 1 := by
  unfold usizeSub USIZE
  omega

/-- A successful fresh `build_index` installs exactly the canonical
(reversed) offset index and leaves the stream at the end of the data. -/
theorem build_index_fresh (r : EsriASCIIReader) (hcache : r.lineCache = [])
    (hrows : r.header.nrows ≤ r.fileLines.length) :
    build_index r = (.ok (),
      { r with lineStartCache := canonicalIndex r.header r.dataStart r.fileLines,
               streamPos := lineOffset r.dataStart r.fileLines r.header.nrows }) := by
  have hEmpty : r.lineCache.isEmpty = true := by simp [hcache]
  simp only [build_index, hEmpty, if_true, EsriASCIIRasterHeader.num_rows, if_pos hrows]
  rfl

/-- When the parsed-row cache is non-empty, `build_index` does nothing. -/
theorem build_index_skip (r : EsriASCIIReader) (hcache : r.lineCache ≠ []) :
    build_index r = (.ok (), r) := by
  have hEmpty : r.lineCache.isEmpty = false := List.isEmpty_eq_false.mpr hcache
  simp only [build_index, hEmpty, Bool.false_eq_true, if_false]

/-- Out-of-bounds `get_index` returns the invalid-input error with the
reader untouched. -/
theorem get_index_oob (r : EsriASCIIReader) (row col : Nat)
    (hb : r.header.nrows ≤ row ∨ r.header.ncols ≤ col) :
    get_index r row col = (.error .invalidInput, r) := by
  simp only [get_index, if_pos hb]

/-- `get_index` never changes the header, the data, the data-start offset,
or the row-offset index. -/
theorem get_index_frame (r : EsriASCIIReader) (row col : Nat) :
    (get_index r row col).2.header = r.header ∧
    (get_index r row col).2.fileLines = r.fileLines ∧
    (get_index r row col).2.dataStart = r.dataStart ∧
    (get_index r row col).2.lineStartCache = r.lineStartCache := by
  unfold get_index
  repeat' split
  all_goals exact ⟨rfl, rfl, rfl, rfl⟩

/-- In-bounds `get_index` yields a value or panics, never an error. -/
theorem get_index_inbounds_cases (r : EsriASCIIReader) (row col : Nat)
    (hrow : row < r.header.nrows) (hcol : col < r.header.ncols) :
    (∃ v r2, get_index r row col = (.ok v, r2)) ∨
    (∃ r2, get_index r row col = (.panicked, r2)) := by
  have hb : ¬(r.header.nrows ≤ row ∨ r.header.ncols ≤ col) := by omega
  unfold get_index
  rw [if_neg hb]
  repeat' split
  all_goals first
    | exact Or.inl ⟨_, _, rfl⟩
    | exact Or.inr ⟨_, rfl⟩

/-- The stored value of cell `(row, col)` in bottom-up raster indexing:
what `get_index` returns for an in-bounds pair on a well-formed grid. -/
def cellValue (hdr : EsriASCIIRasterHeader) (ls : List DataLine) (row col : Nat) : ℚ :=
  physValue ls (hdr.nrows - 1 - row) col

/-- The interpolation result exactly as the claim states it: lower-left
cell clamped to `ncols - 2` / `nrows - 2`, fractional offsets measured
from the lower-left cell's representative coordinate, and the blend
`ll*(1-u)*(1-v) + lr*u*(1-v) + ul*(1-u)*v + ur*u*v`. -/
def specBilinear (hdr : EsriASCIIRasterHeader) (ls : List DataLine) (x y : ℚ) : ℚ :=
  let ll_col := min (Int.toNat ⌊(x - hdr.min_x) / hdr.cellsize⌋) (hdr.ncols - 2)
  let ll_row := min (Int.toNat ⌊(y - hdr.min_y) / hdr.cellsize⌋) (hdr.nrows - 2)
  let ll_x := hdr.min_x + (ll_col : ℚ) * hdr.cellsize
  let ll_y := hdr.min_y + (ll_row : ℚ) * hdr.cellsize
  let u := (x - ll_x) / hdr.cellsize
  let w := (y - ll_y) / hdr.cellsize
  let ll := cellValue hdr ls ll_row ll_col
  let lr := cellValue hdr ls ll_row (ll_col + 1)
  let ul := cellValue hdr ls (ll_row + 1) ll_col
  let ur := cellValue hdr ls (ll_row + 1) (ll_col + 1)
  ll * (1 - u) * (1 - w) + lr * u * (1 - w) + ul * (1 - u) * w + ur * u * w

theorem canonInterp_inside (hdr : EsriASCIIRasterHeader) (ls : List DataLine)
    (h2c : 2 ≤ hdr.ncols) (h2r : 2 ≤ hdr.nrows)
    (hUc : hdr.ncols < USIZE) (hUr : hdr.nrows < USIZE) (x y : ℚ)
    (hx1 : hdr.min_x ≤ x) (hx2 : x ≤ hdr.max_x) (hy1 : hdr.min_y ≤ y) (hy2 : y ≤ hdr.max_y) :
    canonInterp hdr ls x y = .ok (some (specBilinear hdr ls x y)) := by
  have hout : ¬(x < hdr.min_x ∨ x > hdr.max_x ∨ y < hdr.min_y ∨ y > hdr.max_y) := by
    push_neg
    exact ⟨hx1, hx2, hy1, hy2⟩
  simp only [canonInterp, if_neg hout, usizeSub_two h2c hUc, usizeSub_two h2r hUr]
  set cc := min (Int.toNat ⌊(x - hdr.min_x) / hdr.cellsize⌋) (hdr.ncols - 2) with hcc
  set rr := min (Int.toNat ⌊(y - hdr.min_y) / hdr.cellsize⌋) (hdr.nrows - 2) with hrr
  have hccn : cc < hdr.ncols := by
    have : cc ≤ hdr.ncols - 2 := min_le_right _ _
    omega
  have hrrn : rr < hdr.nrows := by
    have : rr ≤ hdr.nrows - 2 := min_le_right _ _
    omega
  have hccn1 : cc + 1 < hdr.ncols := by
    have : cc ≤ hdr.ncols - 2 := min_le_right _ _
    omega
  have hrrn1 : rr + 1 < hdr.nrows := by
    have : rr ≤ hdr.nrows - 2 := min_le_right _ _
    omega
  have hip : hdr.index_pos rr cc =
      some (hdr.min_x + (cc : ℚ) * hdr.cellsize, hdr.min_y + (rr : ℚ) * hdr.cellsize) := by
    simp only [EsriASCIIRasterHeader.index_pos, if_pos (And.intro hrrn hccn)]
  have hg1 : canonGetIndex hdr ls rr cc = .ok (physValue ls (hdr.nrows - 1 - rr) cc) := by
    simp only [canonGetIndex, if_neg (by omega : ¬(hdr.nrows ≤ rr ∨ hdr.ncols ≤ cc))]
  have hg2 : canonGetIndex hdr ls rr (cc + 1) =
      .ok (physValue ls (hdr.nrows - 1 - rr) (cc + 1)) := by
    simp only [canonGetIndex, if_neg (by omega : ¬(hdr.nrows ≤ rr ∨ hdr.ncols ≤ cc + 1))]
  have hg3 : canonGetIndex hdr ls (rr + 1) cc =
      .ok (physValue ls (hdr.nrows - 1 - (rr + 1)) cc) := by
    simp only [canonGetIndex, if_neg (by omega : ¬(hdr.nrows ≤ rr + 1 ∨ hdr.ncols ≤ cc))]
  have hg4 : canonGetIndex hdr ls (rr + 1) (cc + 1) =
      .ok (physValue ls (hdr.nrows - 1 - (rr + 1)) (cc + 1)) := by
    simp only [canonGetIndex, if_neg (by omega : ¬(hdr.nrows ≤ rr + 1 ∨ hdr.ncols ≤ cc + 1))]
  rw [hip, hg1, hg2, hg3, hg4]
  simp only [specBilinear, cellValue, EsriASCIIRasterHeader.cell_size, ← hcc, ← hrr]
  refine congrArg (fun q => RResult.ok (some q)) ?_
  ring

theorem canonGet_inside (hdr : EsriASCIIRasterHeader) (ls : List DataLine)
    (hc : 0 < hdr.ncols) (hr : 0 < hdr.nrows) (x y : ℚ)
    (hx1 : hdr.min_x ≤ x) (hx2 : x ≤ hdr.max_x) (hy1 : hdr.min_y ≤ y) (hy2 : y ≤ hdr.max_y) :
    canonGet hdr ls x y =
      .ok (some (cellValue hdr ls
        (min (Int.toNat ⌊(y - hdr.min_y) / hdr.cellsize⌋) (hdr.nrows - 1))
        (min (Int.toNat ⌊(x - hdr.min_x) / hdr.cellsize⌋) (hdr.ncols - 1)))) := by
  have hout : ¬(x < hdr.min_x ∨ x > hdr.max_x ∨ y < hdr.min_y ∨ y > hdr.max_y) := by
    push_neg
    exact ⟨hx1, hx2, hy1, hy2⟩
  have hio : hdr.index_of x y =
      some (min (Int.toNat ⌊(x - hdr.min_x) / hdr.cellsize⌋) (hdr.ncols - 1),
            min (Int.toNat ⌊(y - hdr.min_y) / hdr.cellsize⌋) (hdr.nrows - 1)) := by
    simp only [EsriASCIIRasterHeader.index_of, if_neg hout]
  have hcol : min (Int.toNat ⌊(x - hdr.min_x) / hdr.cellsize⌋) (hdr.ncols - 1) < hdr.ncols := by
    have := min_le_right (Int.toNat ⌊(x - hdr.min_x) / hdr.cellsize⌋) (hdr.ncols - 1)
    omega
  have hrow : min (Int.toNat ⌊(y - hdr.min_y) / hdr.cellsize⌋) (hdr.nrows - 1) < hdr.nrows := by
    have := min_le_right (Int.toNat ⌊(y - hdr.min_y) / hdr.cellsize⌋) (hdr.nrows - 1)
    omega
  unfold canonGet
  rw [hio]
  dsimp only
  have hgi : canonGetIndex hdr ls
      (min (Int.toNat ⌊(y - hdr.min_y) / hdr.cellsize⌋) (hdr.nrows - 1))
      (min (Int.toNat ⌊(x - hdr.min_x) / hdr.cellsize⌋) (hdr.ncols - 1)) =
      .ok (cellValue hdr ls
        (min (Int.toNat ⌊(y - hdr.min_y) / hdr.cellsize⌋) (hdr.nrows - 1))
        (min (Int.toNat ⌊(x - hdr.min_x) / hdr.cellsize⌋) (hdr.ncols - 1))) := by
    simp only [canonGetIndex, cellValue, if_neg (by omega : ¬(hdr.nrows ≤
      min (Int.toNat ⌊(y - hdr.min_y) / hdr.cellsize⌋) (hdr.nrows - 1) ∨ hdr.ncols ≤
      min (Int.toNat ⌊(x - hdr.min_x) / hdr.cellsize⌋) (hdr.ncols - 1)))]
  rw [hgi]

/-- The triples the iterator reports for the tail of a physical line at row
`q` (top-down), starting at column `j`. -/
def rowItemsFrom (nrows q : Nat) : Nat → List ℚ → List (Nat × Nat × ℚ)
  | _, [] => []
  | j, v :: vs => (nrows - 1 - q, j, v) :: rowItemsFrom nrows q (j + 1) vs

/-- The triples the iterator reports for the physical lines `ls`, the first
of which is physical row `q`. -/
def itemsFrom (nrows : Nat) : Nat → List DataLine → List (Nat × Nat × ℚ)
  | _, [] => []
  | q, l :: rest => rowItemsFrom nrows q 0 l.values ++ itemsFrom nrows (q + 1) rest

theorem rowItemsFrom_length (nrows q : Nat) :
    ∀ (vs : List ℚ) (j : Nat), (rowItemsFrom nrows q j vs).length = vs.length := by
  intro vs
  induction vs with
  | nil => intro j; rfl
  | cons v vs ih => intro j; simp [rowItemsFrom, ih]

theorem itemsFrom_length (hdr : EsriASCIIRasterHeader) (nrows : Nat) :
    ∀ (ls : List DataLine) (q : Nat), (∀ l ∈ ls, l.values.length = hdr.ncols) →
      (itemsFrom nrows q ls).length = ls.length * hdr.ncols := by
  intro ls
  induction ls with
  | nil => intro q _; simp [itemsFrom]
  | cons l rest ih =>
    intro q hall
    have hl : l.values.length = hdr.ncols := hall l (by simp)
    have hrest : ∀ l2 ∈ rest, l2.values.length = hdr.ncols := fun l2 h2 => hall l2 (by simp [h2])
    simp [itemsFrom, rowItemsFrom_length, hl, ih (q + 1) hrest]
    ring

theorem rowItemsFrom_getElem (nrows q : Nat) :
    ∀ (vs : List ℚ) (j k : Nat) (v : ℚ), vs[k]? = some v →
      (rowItemsFrom nrows q j vs)[k]? = some (nrows - 1 - q, j + k, v) := by
  intro vs
  induction vs with
  | nil => intro j k v h; simp at h
  | cons w vs ih =>
    intro j k v h
    cases k with
    | zero =>
      simp at h
      subst h
      simp [rowItemsFrom]
    | succ k2 =>
      simp only [List.getElem?_cons_succ] at h
      have := ih (j + 1) k2 v h
      simpa [rowItemsFrom, Nat.add_assoc, Nat.add_comm 1 k2] using this

theorem itemsFrom_getElem (hdr : EsriASCIIRasterHeader) (nrows : Nat) :
    ∀ (ls : List DataLine) (q0 q j : Nat), (∀ l ∈ ls, l.values.length = hdr.ncols) →
      q < ls.length → j < hdr.ncols →
      (itemsFrom nrows q0 ls)[q * hdr.ncols + j]? =
        some (nrows - 1 - (q0 + q), j, physValue ls q j) := by
  intro ls
  induction ls with
  | nil => intro q0 q j _ hq _; simp at hq
  | cons l rest ih =>
    intro q0 q j hall hq hj
    have hl : l.values.length = hdr.ncols := hall l (by simp)
    have hrest : ∀ l2 ∈ rest, l2.values.length = hdr.ncols := fun l2 h2 => hall l2 (by simp [h2])
    cases q with
    | zero =>
      have hjlen : j < l.values.length := by omega
      obtain ⟨v, hval⟩ : ∃ v, l.values[j]? = some v := by
        rw [List.getElem?_eq_getElem hjlen]
        exact ⟨_, rfl⟩
      have hrow := rowItemsFrom_getElem nrows q0 l.values 0 j v hval
      have hlenrow : ((rowItemsFrom nrows q0 0 l.values)).length = hdr.ncols := by
        rw [rowItemsFrom_length]; exact hl
      have hphys : physValue (l :: rest) 0 j = v := by
        have hrv : rowValues (l :: rest) 0 = l.values := by simp [rowValues]
        simp [physValue, hrv, hval]
      simp only [itemsFrom, Nat.zero_mul, Nat.zero_add, List.getElem?_append,
        hlenrow, if_pos hj, hrow, hphys, Nat.add_zero]
    | succ q2 =>
      have hq2 : q2 < rest.length := by simpa using hq
      have hlenrow : ((rowItemsFrom nrows q0 0 l.values)).length = hdr.ncols := by
        rw [rowItemsFrom_length]; exact hl
      have hge : (rowItemsFrom nrows q0 0 l.values).length ≤ (q2 + 1) * hdr.ncols + j := by
        rw [hlenrow]
        have : hdr.ncols ≤ (q2 + 1) * hdr.ncols := by
          calc hdr.ncols = 1 * hdr.ncols := by ring
            _ ≤ (q2 + 1) * hdr.ncols := by
              exact Nat.mul_le_mul_right _ (by omega)
        omega
      have hidx : (q2 + 1) * hdr.ncols + j - (rowItemsFrom nrows q0 0 l.values).length =
          q2 * hdr.ncols + j := by
        rw [hlenrow]
        have : (q2 + 1) * hdr.ncols = q2 * hdr.ncols + hdr.ncols := by ring
        omega
      have hphys : physValue (l :: rest) (q2 + 1) j = physValue rest q2 j := by
        simp [physValue, rowValues]
      rw [itemsFrom, List.getElem?_append_right hge, hidx, ih (q0 + 1) q2 j hrest hq2 hj, hphys]
      congr 2
      omega

theorem collect_line (hdr : EsriASCIIRasterHeader) (rest : List DataLine) (q : Nat) :
    ∀ (vs : List ℚ) (j fuel : Nat), j + vs.length = hdr.ncols → vs.length ≤ fuel →
      collect fuel ⟨hdr, rest, vs, q, j⟩ =
        RResult.map (fun xs => rowItemsFrom hdr.nrows q j vs ++ xs)
          (collect (fuel - vs.length) ⟨hdr, rest, [], q, hdr.ncols⟩) := by
  intro vs
  induction vs with
  | nil =>
    intro j fuel hj hfuel
    simp only [List.length_nil, Nat.add_zero] at hj
    subst hj
    simp only [rowItemsFrom, Nat.sub_zero]
    cases h : collect fuel (⟨hdr, rest, [], q, hdr.ncols⟩ : IterState) <;>
      simp [RResult.map, h]
  | cons v vs ih =>
    intro j fuel hj hfuel
    cases fuel with
    | zero =>
      exfalso
      simp at hfuel
    | succ f =>
      simp only [List.length_cons] at hj hfuel
      have hnext : iterNext ⟨hdr, rest, v :: vs, q, j⟩ =
          .ok (some ((hdr.nrows - 1 - q, j, v), ⟨hdr, rest, vs, q, j + 1⟩)) := by
        unfold iterNext iterEmit
        rw [if_neg (by omega : ¬ hdr.ncols ≤ j)]
      simp only [collect]
      rw [hnext]
      dsimp only
      rw [ih (j + 1) f (by omega) (by omega)]
      have hfe : f + 1 - (v :: vs).length = f - vs.length := by simp
      rw [hfe]
      cases h : collect (f - vs.length) (⟨hdr, rest, [], q, hdr.ncols⟩ : IterState) <;>
        simp [RResult.map, rowItemsFrom, h]

theorem collect_rows (hdr : EsriASCIIRasterHeader) (hc : 0 < hdr.ncols) :
    ∀ (rest : List DataLine) (q fuel : Nat),
      (∀ l ∈ rest, l.values.length = hdr.ncols) →
      q + 1 + rest.length = hdr.nrows →
      rest.length * hdr.ncols + 1 ≤ fuel →
      collect fuel ⟨hdr, rest, [], q, hdr.ncols⟩ = .ok (itemsFrom hdr.nrows (q + 1) rest) := by
  intro rest
  induction rest with
  | nil =>
    intro q fuel hall hq hfuel
    cases fuel with
    | zero => simp at hfuel
    | succ f =>
      have hnext : iterNext ⟨hdr, [], [], q, hdr.ncols⟩ = .ok none := by
        unfold iterNext
        rw [if_pos (le_refl _), if_pos (by simp at hq; omega : hdr.nrows ≤ q + 1)]
      simp only [collect]
      rw [hnext]
      simp [itemsFrom]
  | cons l rest2 ih =>
    intro q fuel hall hq hfuel
    have hl : l.values.length = hdr.ncols := hall l (by simp)
    have hrest : ∀ l2 ∈ rest2, l2.values.length = hdr.ncols :=
      fun l2 h2 => hall l2 (by simp [h2])
    have hprod : (l :: rest2).length * hdr.ncols =
        rest2.length * hdr.ncols + hdr.ncols := by
      simp [List.length_cons]
      ring
    rw [hprod] at hfuel
    cases fuel with
    | zero => exact absurd hfuel (Nat.not_succ_le_zero _)
    | succ f =>
      obtain ⟨w, ws, hlv⟩ : ∃ w ws, l.values = w :: ws := by
        cases hl2 : l.values with
        | nil => rw [hl2] at hl; simp at hl; omega
        | cons a b => exact ⟨a, b, rfl⟩
      have hws : ws.length + 1 = hdr.ncols := by
        rw [hlv] at hl
        simpa using hl
      have hnext : iterNext ⟨hdr, l :: rest2, [], q, hdr.ncols⟩ =
          .ok (some ((hdr.nrows - 1 - (q + 1), 0, w), ⟨hdr, rest2, ws, q + 1, 1⟩)) := by
        unfold iterNext
        rw [if_pos (le_refl _), if_neg (by simp at hq; omega : ¬ hdr.nrows ≤ q + 1)]
        dsimp only
        unfold iterEmit
        rw [hlv]
      simp only [collect]
      rw [hnext]
      dsimp only
      rw [collect_line hdr rest2 (q + 1) ws 1 f (by omega) (by omega)]
      rw [ih (q + 1) (f - ws.length) hrest (by simp at hq ⊢; omega) (by omega)]
      simp [RResult.map, itemsFrom, rowItemsFrom, hlv]

theorem collect_into_iter (r : EsriASCIIReader)
    (hWF : WellFormedData r.header r.fileLines) :
    ∃ it, into_iter r = .ok it ∧
      ∀ fuel, r.header.nrows * r.header.ncols + 1 ≤ fuel →
        collect fuel it = .ok (itemsFrom r.header.nrows 0 r.fileLines) := by
  obtain ⟨hr, hc, hlen, hall⟩ := hWF
  cases hls : r.fileLines with
  | nil =>
    rw [hls] at hlen
    simp at hlen
    omega
  | cons l rest =>
    refine ⟨⟨r.header, rest, l.values, 0, 0⟩, ?_, ?_⟩
    · unfold into_iter
      rw [hls]
    · intro fuel hfuel
      rw [hls] at hall hlen
      have hl : l.values.length = r.header.ncols := hall l (by simp)
      have hrest : ∀ l2 ∈ rest, l2.values.length = r.header.ncols :=
        fun l2 h2 => hall l2 (by simp [h2])
      have hlen2 : rest.length + 1 = r.header.nrows := by simpa using hlen
      have hprod : r.header.nrows * r.header.ncols =
          rest.length * r.header.ncols + r.header.ncols := by
        rw [← hlen2]
        ring
      rw [hprod] at hfuel
      rw [collect_line r.header rest 0 l.values 0 fuel (by omega) (by omega)]
      rw [collect_rows r.header hc rest 0 (fuel - l.values.length) hrest (by omega) (by omega)]
      simp [RResult.map, itemsFrom]

/-! ### Concrete grids used for witnesses and counterexamples -/

/-- A 2×2 grid with origin (0,0), cellsize 1; physical line 0 (top, y = 1)
is `3 4`, physical line 1 (bottom, y = 0) is `1 2`; each line is 7 bytes
long and the data section starts at byte 100. -/
def sampleHeader : EsriASCIIRasterHeader := ⟨2, 2, 0, 0, 1⟩

def sampleLines : List DataLine := [⟨[3, 4], 7⟩, ⟨[1, 2], 7⟩]

def sampleReader : EsriASCIIReader := ⟨sampleHeader, sampleLines, 100, [], [], 100⟩

/-- A well-formed 1×1 grid: single cell with value 7. -/
def tinyHeader : EsriASCIIRasterHeader := ⟨1, 1, 0, 0, 1⟩

def tinyReader : EsriASCIIReader := ⟨tinyHeader, [⟨[7], 1⟩], 0, [], [], 0⟩

/-! ### Claim C1 -/

/-- Claim C1 is false as stated: after a prior `get_index` call has
populated the row cache of a well-formed 1×1 reader, `build_index`
returns `Ok` yet the row-offset index is left empty — its length 0
differs from `nrows = 1`, and the prior state does matter. -/
theorem claim_C1_cex :
    (build_index ((get_index tinyReader 0 0).2)).1 = .ok () ∧
    (build_index ((get_index tinyReader 0 0).2)).2.lineStartCache.length ≠
      tinyReader.header.nrows := by
  decide

/-- Claim C1 (amended): on a reader whose parsed-row cache is empty,
`build_index` returns `Ok` and the index then holds exactly one byte
offset per data row (length `nrows`); calling `build_index` again
returns `Ok` and leaves the index unchanged. -/
theorem claim_C1 (r : EsriASCIIReader) (hcache : r.lineCache = [])
    (hrows : r.header.nrows ≤ r.fileLines.length) :
    (build_index r).1 = .ok () ∧
    (build_index r).2.lineStartCache.length = r.header.nrows ∧
    (build_index (build_index r).2).1 = .ok () ∧
    (build_index (build_index r).2).2.lineStartCache = (build_index r).2.lineStartCache := by
  have h1 := build_index_fresh r hcache hrows
  have hcache2 : ((build_index r).2).lineCache = [] := by
    rw [h1]; exact hcache
  have hrows2 : ((build_index r).2).header.nrows ≤ ((build_index r).2).fileLines.length := by
    rw [h1]; exact hrows
  have h2 := build_index_fresh _ hcache2 hrows2
  refine ⟨by rw [h1], ?_, by rw [h2], ?_⟩
  · rw [h1]
    exact canonicalIndex_length r.header r.dataStart r.fileLines
  · rw [h2, h1]

theorem claim_C1_witness :
    sampleReader.lineCache = [] ∧
    sampleReader.header.nrows ≤ sampleReader.fileLines.length ∧
    ((build_index sampleReader).1 = .ok () ∧
     (build_index sampleReader).2.lineStartCache.length = sampleReader.header.nrows ∧
     (build_index (build_index sampleReader).2).1 = .ok () ∧
     (build_index (build_index sampleReader).2).2.lineStartCache =
       (build_index sampleReader).2.lineStartCache) :=
  ⟨rfl, by decide, claim_C1 sampleReader rfl (by decide)⟩

/-! ### Claim C3 -/

/-- Claim C3 is false as stated: on a freshly indexed 2-row reader, index
entry 0 is byte 108, the offset of the *bottom* (last) physical line,
not the offset 100 of the 0-th (topmost) physical line — the vector is
reversed into bottom-up raster order. -/
theorem claim_C3_cex :
    (build_index sampleReader).1 = .ok () ∧
    lineOffset sampleReader.dataStart sampleReader.fileLines 0 = 100 ∧
    (build_index sampleReader).2.lineStartCache[0]? = some 108 ∧
    (build_index sampleReader).2.lineStartCache[0]? ≠
      some (lineOffset sampleReader.dataStart sampleReader.fileLines 0) := by
  decide

/-- Claim C3 (amended): after `build_index` succeeds on a fresh reader,
entry `i` of the row-offset index points exactly at the first byte of
physical data line `nrows - 1 - i`; that is, the index is ordered by
bottom-up raster row (entry 0 = bottom line = lowest-Y row). -/
theorem claim_C3 (r : EsriASCIIReader) (hcache : r.lineCache = [])
    (hrows : r.header.nrows ≤ r.fileLines.length) :
    (build_index r).1 = .ok () ∧
    ∀ i, i < r.header.nrows →
      (build_index r).2.lineStartCache[i]? =
        some (lineOffset r.dataStart r.fileLines (r.header.nrows - 1 - i)) := by
  have h1 := build_index_fresh r hcache hrows
  refine ⟨by rw [h1], ?_⟩
  intro i hi
  rw [h1]
  exact canonicalIndex_getElem hi

theorem claim_C3_witness :
    sampleReader.lineCache = [] ∧
    sampleReader.header.nrows ≤ sampleReader.fileLines.length ∧
    ((build_index sampleReader).1 = .ok () ∧
     ∀ i, i < sampleReader.header.nrows →
       (build_index sampleReader).2.lineStartCache[i]? =
         some (lineOffset sampleReader.dataStart sampleReader.fileLines
           (sampleReader.header.nrows - 1 - i))) :=
  ⟨rfl, by decide, claim_C3 sampleReader rfl (by decide)⟩

/-! ### Claim C7 -/

/-- Claim C7: for every reader and every `(row, col)` with `row ≥ nrows` or
`col ≥ ncols`, `get_index` returns the invalid-input error — never a value
and never a panic. -/
theorem claim_C7 (r : EsriASCIIReader) (row col : Nat)
    (hb : r.header.nrows ≤ row ∨ r.header.ncols ≤ col) :
    (get_index r row col).1 = .error .invalidInput := by
  rw [get_index_oob r row col hb]

theorem claim_C7_witness :
    (tinyReader.header.nrows ≤ 5 ∨ tinyReader.header.ncols ≤ 0) ∧
    (get_index tinyReader 5 0).1 = .error .invalidInput :=
  ⟨by decide, claim_C7 tinyReader 5 0 (by decide)⟩

/-! ### Claim C9 -/

/-- Claim C9: an out-of-bounds `get_index` call fails immediately with no
partial effect — the row cache, the row-offset index, and the stream
position are exactly as before the call. -/
theorem claim_C9 (r : EsriASCIIReader) (row col : Nat)
    (hb : r.header.nrows ≤ row ∨ r.header.ncols ≤ col) :
    (get_index r row col).1 = .error .invalidInput ∧
    (get_index r row col).2.lineCache = r.lineCache ∧
    (get_index r row col).2.lineStartCache = r.lineStartCache ∧
    (get_index r row col).2.streamPos = r.streamPos := by
  rw [get_index_oob r row col hb]
  exact ⟨rfl, rfl, rfl, rfl⟩

theorem claim_C9_witness :
    (sampleReader.header.nrows ≤ 0 ∨ sampleReader.header.ncols ≤ 9) ∧
    ((get_index sampleReader 0 9).1 = .error .invalidInput ∧
     (get_index sampleReader 0 9).2.lineCache = sampleReader.lineCache ∧
     (get_index sampleReader 0 9).2.lineStartCache = sampleReader.lineStartCache ∧
     (get_index sampleReader 0 9).2.streamPos = sampleReader.streamPos) :=
  ⟨by decide, claim_C9 sampleReader 0 9 (by decide)⟩

/-! ### Claim C2 -/

/-- Claim C2: building the index is a pure performance optimisation — on a
fresh reader over a well-formed grid, `build_index` succeeds and every
subsequent `get_index`, `get`, and `get_interpolate` result is the same
as on an identical reader without the index. -/
theorem claim_C2 (r : EsriASCIIReader) (hcache : r.lineCache = [])
    (hidx : r.lineStartCache = []) (hWF : WellFormedData r.header r.fileLines) :
    (build_index r).1 = .ok () ∧
    (∀ row col, (get_index (build_index r).2 row col).1 = (get_index r row col).1) ∧
    (∀ x y, (((build_index r).2).get x y).1 = (r.get x y).1) ∧
    (∀ x y, (get_interpolate (build_index r).2 x y).1 = (get_interpolate r x y).1) := by
  have hrows : r.header.nrows ≤ r.fileLines.length := le_of_eq hWF.2.2.1.symm
  have h1 := build_index_fresh r hcache hrows
  have hInv0 : ReaderInv r := by
    refine ⟨hWF, ?_, Or.inl hidx⟩
    intro p hp
    rw [hcache] at hp
    simp at hp
  have hh : ((build_index r).2).header = r.header := by rw [h1]
  have hf : ((build_index r).2).fileLines = r.fileLines := by rw [h1]
  have hInv2 : ReaderInv ((build_index r).2) := by
    rw [h1]
    refine ⟨hWF, ?_, Or.inr rfl⟩
    intro p hp
    rw [hcache] at hp
    simp at hp
  refine ⟨by rw [h1], ?_, ?_, ?_⟩
  · intro row col
    rw [(get_index_canon _ row col hInv2).1, (get_index_canon r row col hInv0).1, hh, hf]
  · intro x y
    rw [(get_canon _ x y hInv2).1, (get_canon r x y hInv0).1, hh, hf]
  · intro x y
    rw [(get_interpolate_canon _ x y hInv2).1, (get_interpolate_canon r x y hInv0).1, hh, hf]

theorem claim_C2_witness :
    sampleReader.lineCache = [] ∧
    sampleReader.lineStartCache = [] ∧
    WellFormedData sampleReader.header sampleReader.fileLines ∧
    ((build_index sampleReader).1 = .ok () ∧
     (∀ row col, (get_index (build_index sampleReader).2 row col).1 =
       (get_index sampleReader row col).1) ∧
     (∀ x y, (((build_index sampleReader).2).get x y).1 = (sampleReader.get x y).1) ∧
     (∀ x y, (get_interpolate (build_index sampleReader).2 x y).1 =
       (get_interpolate sampleReader x y).1)) :=
  ⟨rfl, rfl, by decide, claim_C2 sampleReader rfl rfl (by decide)⟩

/-! ### Claim C5 -/

/-- Claim C5: on a well-formed grid the consuming iterator yields exactly
`nrows * ncols` triples and then reports exhaustion (any fuel beyond
`nrows*ncols` collects the same finished list); the `(q*ncols + j)`-th
triple is `(nrows-1-q, j, value of physical line q at column j)`, so every
cell is covered exactly once, top row first, columns left-to-right. -/
theorem claim_C5 (r : EsriASCIIReader) (hWF : WellFormedData r.header r.fileLines) :
    ∃ it, into_iter r = .ok it ∧
      ∀ fuel, r.header.nrows * r.header.ncols + 1 ≤ fuel →
        ∃ L, collect fuel it = .ok L ∧
          L.length = r.header.nrows * r.header.ncols ∧
          ∀ q j, q < r.header.nrows → j < r.header.ncols →
            L[q * r.header.ncols + j]? =
              some (r.header.nrows - 1 - q, j, physValue r.fileLines q j) := by
  obtain ⟨it, hit, hcol⟩ := collect_into_iter r hWF
  refine ⟨it, hit, ?_⟩
  intro fuel hfuel
  refine ⟨itemsFrom r.header.nrows 0 r.fileLines, hcol fuel hfuel, ?_, ?_⟩
  · rw [itemsFrom_length r.header r.header.nrows r.fileLines 0 hWF.2.2.2,
      hWF.2.2.1]
  · intro q j hq hj
    have h := itemsFrom_getElem r.header r.header.nrows r.fileLines 0 q j
      hWF.2.2.2 (by rw [hWF.2.2.1]; exact hq) hj
    simpa using h

theorem claim_C5_witness :
    WellFormedData sampleReader.header sampleReader.fileLines ∧
    (∃ it, into_iter sampleReader = .ok it ∧
      ∀ fuel, sampleReader.header.nrows * sampleReader.header.ncols + 1 ≤ fuel →
        ∃ L, collect fuel it = .ok L ∧
          L.length = sampleReader.header.nrows * sampleReader.header.ncols ∧
          ∀ q j, q < sampleReader.header.nrows → j < sampleReader.header.ncols →
            L[q * sampleReader.header.ncols + j]? =
              some (sampleReader.header.nrows - 1 - q, j,
                physValue sampleReader.fileLines q j)) :=
  ⟨by decide, claim_C5 sampleReader (by decide)⟩

/-! ### Claim C4 -/

/-- Claim C4: full-raster iteration and direct indexed access agree — every
triple `(row, col, value)` collected from the consuming iterator satisfies
`get_index(row, col) = Ok value` on a fresh reader over the same file. -/
theorem claim_C4 (r : EsriASCIIReader) (hcache : r.lineCache = [])
    (hidx : r.lineStartCache = []) (hWF : WellFormedData r.header r.fileLines)
    (it : IterState) (hit : into_iter r = .ok it)
    (fuel : Nat) (hfuel : r.header.nrows * r.header.ncols + 1 ≤ fuel)
    (L : List (Nat × Nat × ℚ)) (hL : collect fuel it = .ok L) :
    ∀ t ∈ L, (get_index r t.1 t.2.1).1 = .ok t.2.2 := by
  obtain ⟨it2, hit2, hcol⟩ := collect_into_iter r hWF
  rw [hit] at hit2
  injection hit2 with hite
  subst hite
  have hLL := hcol fuel hfuel
  rw [hL] at hLL
  injection hLL with hLe
  subst hLe
  intro t ht
  obtain ⟨k, hk⟩ := List.mem_iff_getElem?.mp ht
  have hkb : k < (itemsFrom r.header.nrows 0 r.fileLines).length := by
    by_contra hge
    push_neg at hge
    rw [List.getElem?_eq_none hge] at hk
    exact Option.noConfusion hk
  rw [itemsFrom_length r.header r.header.nrows r.fileLines 0 hWF.2.2.2] at hkb
  have hcpos : 0 < r.header.ncols := hWF.2.1
  have hjlt : k % r.header.ncols < r.header.ncols := Nat.mod_lt _ hcpos
  have hqlt : k / r.header.ncols < r.header.nrows := by
    rw [Nat.div_lt_iff_lt_mul hcpos]
    calc k < r.fileLines.length * r.header.ncols := hkb
      _ = r.header.nrows * r.header.ncols := by rw [hWF.2.2.1]
  have hdm : r.header.ncols * (k / r.header.ncols) + k % r.header.ncols = k :=
    Nat.div_add_mod k r.header.ncols
  generalize hqg : k / r.header.ncols = q at hqlt hdm
  generalize hjg : k % r.header.ncols = j at hjlt hdm
  have hkeq : k = q * r.header.ncols + j := by
    have hcm : r.header.ncols * q = q * r.header.ncols := Nat.mul_comm _ _
    omega
  rw [hkeq] at hk
  rw [itemsFrom_getElem r.header r.header.nrows r.fileLines 0 q j hWF.2.2.2
    (by rw [hWF.2.2.1]; exact hqlt) hjlt] at hk
  injection hk with hte
  subst hte
  have hInv0 : ReaderInv r := by
    refine ⟨hWF, ?_, Or.inl hidx⟩
    intro p hp
    rw [hcache] at hp
    simp at hp
  have hcanon := (get_index_canon r (r.header.nrows - 1 - (0 + q)) j hInv0).1
  rw [hcanon]
  simp only [canonGetIndex, if_neg (by omega :
    ¬(r.header.nrows ≤ r.header.nrows - 1 - (0 + q) ∨ r.header.ncols ≤ j))]
  congr 2
  omega

theorem claim_C4_witness :
    sampleReader.lineCache = [] ∧
    sampleReader.lineStartCache = [] ∧
    WellFormedData sampleReader.header sampleReader.fileLines ∧
    ∃ it, into_iter sampleReader = .ok it ∧
      ∃ L, collect 5 it = .ok L ∧
        ∀ t ∈ L, (get_index sampleReader t.1 t.2.1).1 = .ok t.2.2 := by
  refine ⟨rfl, rfl, by decide, ⟨sampleHeader, [⟨[1, 2], 7⟩], [3, 4], 0, 0⟩, by decide, ?_⟩
  obtain ⟨L, hL⟩ : ∃ L, collect 5 (⟨sampleHeader, [⟨[1, 2], 7⟩], [3, 4], 0, 0⟩ : IterState) =
      .ok L := ⟨[(1, 0, 3), (1, 1, 4), (0, 0, 1), (0, 1, 2)], by decide⟩
  exact ⟨L, hL, claim_C4 sampleReader rfl rfl (by decide)
    ⟨sampleHeader, [⟨[1, 2], 7⟩], [3, 4], 0, 0⟩ (by decide) 5 (by decide) L hL⟩

/-! ### Claim C6 -/

/-- Claim C6: on a fresh reader over a well-formed grid with at least 2
rows and columns, `get_interpolate` at any in-bounds coordinate returns
exactly the bilinear blend of the claim: lower-left cell clamped to
`ncols-2` / `nrows-2`, weights measured from the lower-left cell's
representative coordinate. -/
theorem claim_C6 (r : EsriASCIIReader) (hcache : r.lineCache = [])
    (hidx : r.lineStartCache = []) (hWF : WellFormedData r.header r.fileLines)
    (h2c : 2 ≤ r.header.ncols) (h2r : 2 ≤ r.header.nrows)
    (hUc : r.header.ncols < USIZE) (hUr : r.header.nrows < USIZE)
    (x y : ℚ) (hx1 : r.header.min_x ≤ x) (hx2 : x ≤ r.header.max_x)
    (hy1 : r.header.min_y ≤ y) (hy2 : y ≤ r.header.max_y) :
    (get_interpolate r x y).1 = .ok (some (specBilinear r.header r.fileLines x y)) := by
  have hInv : ReaderInv r := by
    refine ⟨hWF, ?_, Or.inl hidx⟩
    intro p hp
    rw [hcache] at hp
    simp at hp
  rw [(get_interpolate_canon r x y hInv).1]
  exact canonInterp_inside r.header r.fileLines h2c h2r hUc hUr x y hx1 hx2 hy1 hy2

theorem claim_C6_witness :
    (sampleReader.lineCache = [] ∧ sampleReader.lineStartCache = [] ∧
     WellFormedData sampleReader.header sampleReader.fileLines ∧
     2 ≤ sampleReader.header.ncols ∧ 2 ≤ sampleReader.header.nrows ∧
     sampleReader.header.ncols < USIZE ∧ sampleReader.header.nrows < USIZE ∧
     sampleReader.header.min_x ≤ 0 ∧ (0 : ℚ) ≤ sampleReader.header.max_x ∧
     sampleReader.header.min_y ≤ 0 ∧ (0 : ℚ) ≤ sampleReader.header.max_y) ∧
    (get_interpolate sampleReader 0 0).1 =
      .ok (some (specBilinear sampleReader.header sampleReader.fileLines 0 0)) := by
  refine ⟨⟨rfl, rfl, by decide, by decide, by decide, by decide, by decide, ?_, ?_, ?_, ?_⟩, ?_⟩
  · norm_num [sampleReader, sampleHeader]
  · norm_num [sampleReader, sampleHeader, EsriASCIIRasterHeader.max_x]
  · norm_num [sampleReader, sampleHeader]
  · norm_num [sampleReader, sampleHeader, EsriASCIIRasterHeader.max_y]
  · exact claim_C6 sampleReader rfl rfl (by decide) (by decide) (by decide) (by decide)
      (by decide) 0 0 (by norm_num [sampleReader, sampleHeader])
      (by norm_num [sampleReader, sampleHeader, EsriASCIIRasterHeader.max_x])
      (by norm_num [sampleReader, sampleHeader])
      (by norm_num [sampleReader, sampleHeader, EsriASCIIRasterHeader.max_y])

/-! ### Claim C8 -/

/-- Claim C8 is false as stated: the well-formed 1×1 grid has the in-bounds
corner coordinate (0,0) — both bounds checks pass — yet `get_interpolate`
panics there instead of returning a value. -/
theorem claim_C8_cex :
    WellFormedData tinyReader.header tinyReader.fileLines ∧
    tinyReader.header.min_x ≤ 0 ∧ (0 : ℚ) ≤ tinyReader.header.max_x ∧
    tinyReader.header.min_y ≤ 0 ∧ (0 : ℚ) ≤ tinyReader.header.max_y ∧
    (get_interpolate tinyReader 0 0).1 = .panicked ∧
    ¬ ∃ v, (get_interpolate tinyReader 0 0).1 = .ok (some v) := by
  have heval : (get_interpolate tinyReader 0 0).1 = .panicked := by
    norm_num [get_interpolate, tinyReader, tinyHeader, EsriASCIIRasterHeader.max_x,
      EsriASCIIRasterHeader.max_y, EsriASCIIRasterHeader.index_pos,
      EsriASCIIRasterHeader.cell_size, get_index, usizeSub, USIZE, cacheLookup,
      seekLine, lineOffset, physValue, rowValues]
  refine ⟨by decide, by norm_num [tinyReader, tinyHeader],
    by norm_num [tinyReader, tinyHeader, EsriASCIIRasterHeader.max_x],
    by norm_num [tinyReader, tinyHeader],
    by norm_num [tinyReader, tinyHeader, EsriASCIIRasterHeader.max_y],
    heval, ?_⟩
  rw [heval]
  rintro ⟨v, hv⟩
  exact RResult.noConfusion hv

/-- Claim C8 (amended): coordinates strictly outside the bounding box give
absence from both `get` and `get_interpolate`; inside the box on a
well-formed grid, `get` always returns a value, and `get_interpolate`
returns a value provided the raster has at least 2 rows and 2 columns
(on a single-row or single-column raster it panics instead, see C10). -/
theorem claim_C8 (r : EsriASCIIReader) (hcache : r.lineCache = [])
    (hidx : r.lineStartCache = []) (hWF : WellFormedData r.header r.fileLines)
    (hUc : r.header.ncols < USIZE) (hUr : r.header.nrows < USIZE) (x y : ℚ) :
    ((x < r.header.min_x ∨ x > r.header.max_x ∨ y < r.header.min_y ∨ y > r.header.max_y) →
      (r.get x y).1 = .ok none ∧ (get_interpolate r x y).1 = .ok none) ∧
    ((r.header.min_x ≤ x ∧ x ≤ r.header.max_x ∧ r.header.min_y ≤ y ∧ y ≤ r.header.max_y) →
      (∃ v, (r.get x y).1 = .ok (some v)) ∧
      (2 ≤ r.header.ncols → 2 ≤ r.header.nrows →
        ∃ v, (get_interpolate r x y).1 = .ok (some v))) := by
  have hInv : ReaderInv r := by
    refine ⟨hWF, ?_, Or.inl hidx⟩
    intro p hp
    rw [hcache] at hp
    simp at hp
  constructor
  · intro hout
    constructor
    · have hio : r.header.index_of x y = none := by
        simp only [EsriASCIIRasterHeader.index_of, if_pos hout]
      simp only [EsriASCIIReader.get, hio]
    · simp only [get_interpolate, if_pos hout]
  · rintro ⟨hx1, hx2, hy1, hy2⟩
    constructor
    · rw [(get_canon r x y hInv).1,
        canonGet_inside r.header r.fileLines hWF.2.1 hWF.1 x y hx1 hx2 hy1 hy2]
      exact ⟨_, rfl⟩
    · intro h2c h2r
      rw [(get_interpolate_canon r x y hInv).1,
        canonInterp_inside r.header r.fileLines h2c h2r hUc hUr x y hx1 hx2 hy1 hy2]
      exact ⟨_, rfl⟩

theorem claim_C8_witness :
    (sampleReader.lineCache = [] ∧ sampleReader.lineStartCache = [] ∧
     WellFormedData sampleReader.header sampleReader.fileLines ∧
     sampleReader.header.ncols < USIZE ∧ sampleReader.header.nrows < USIZE) ∧
    (((0 : ℚ) < sampleReader.header.min_x ∨ (0 : ℚ) > sampleReader.header.max_x ∨
        (0 : ℚ) < sampleReader.header.min_y ∨ (0 : ℚ) > sampleReader.header.max_y) →
      (sampleReader.get 0 0).1 = .ok none ∧ (get_interpolate sampleReader 0 0).1 = .ok none) ∧
    ((sampleReader.header.min_x ≤ 0 ∧ (0 : ℚ) ≤ sampleReader.header.max_x ∧
        sampleReader.header.min_y ≤ 0 ∧ (0 : ℚ) ≤ sampleReader.header.max_y) →
      (∃ v, (sampleReader.get 0 0).1 = .ok (some v)) ∧
      (2 ≤ sampleReader.header.ncols → 2 ≤ sampleReader.header.nrows →
        ∃ v, (get_interpolate sampleReader 0 0).1 = .ok (some v))) :=
  ⟨⟨rfl, rfl, by decide, by decide, by decide⟩,
   (claim_C8 sampleReader rfl rfl (by decide) (by decide) (by decide) 0 0).1,
   (claim_C8 sampleReader rfl rfl (by decide) (by decide) (by decide) 0 0).2⟩

/-! ### Claim C10 -/

/-- Claim C10: on a raster with a single column or a single row, any
in-bounds `get_interpolate` call panics — the wrapped `ncols - 2` /
`nrows - 2` clamp bounds let the neighbourhood fetches reach an
out-of-bounds `get_index`, whose error result is unwrapped. -/
theorem claim_C10 (r : EsriASCIIReader)
    (hc : 0 < r.header.ncols) (hr : 0 < r.header.nrows)
    (hUc : r.header.ncols < USIZE) (hUr : r.header.nrows < USIZE)
    (hdeg : r.header.ncols = 1 ∨ r.header.nrows = 1)
    (x y : ℚ) (hx1 : r.header.min_x ≤ x) (hx2 : x ≤ r.header.max_x)
    (hy1 : r.header.min_y ≤ y) (hy2 : y ≤ r.header.max_y) :
    (get_interpolate r x y).1 = .panicked := by
  have hout : ¬(x < r.header.min_x ∨ x > r.header.max_x ∨
      y < r.header.min_y ∨ y > r.header.max_y) := by
    push_neg
    exact ⟨hx1, hx2, hy1, hy2⟩
  unfold get_interpolate
  rw [if_neg hout]
  set llc := min (Int.toNat ⌊(x - r.header.min_x) / r.header.cellsize⌋)
    (usizeSub r.header.ncols 2) with hllc
  set llr := min (Int.toNat ⌊(y - r.header.min_y) / r.header.cellsize⌋)
    (usizeSub r.header.nrows 2) with hllr
  have hllcn : llc < r.header.ncols := by
    by_cases h1 : r.header.ncols = 1
    · have hmx : r.header.max_x = r.header.min_x := by
        unfold EsriASCIIRasterHeader.max_x
        rw [h1]
        norm_num
      have hxe : x = r.header.min_x := le_antisymm (hmx ▸ hx2) hx1
      have hq0 : (x - r.header.min_x) / r.header.cellsize = 0 := by
        rw [hxe, sub_self, zero_div]
      have hllc0 : llc = 0 := by
        rw [hllc, hq0]
        simp
      rw [hllc0, h1]
      omega
    · have h2 : 2 ≤ r.header.ncols := by omega
      have hle : llc ≤ usizeSub r.header.ncols 2 := min_le_right _ _
      rw [usizeSub_two h2 hUc] at hle
      omega
  have hllrn : llr < r.header.nrows := by
    by_cases h1 : r.header.nrows = 1
    · have hmy : r.header.max_y = r.header.min_y := by
        unfold EsriASCIIRasterHeader.max_y
        rw [h1]
        norm_num
      have hye : y = r.header.min_y := le_antisymm (hmy ▸ hy2) hy1
      have hq0 : (y - r.header.min_y) / r.header.cellsize = 0 := by
        rw [hye, sub_self, zero_div]
      have hllr0 : llr = 0 := by
        rw [hllr, hq0]
        simp
      rw [hllr0, h1]
      omega
    · have h2 : 2 ≤ r.header.nrows := by omega
      have hle : llr ≤ usizeSub r.header.nrows 2 := min_le_right _ _
      rw [usizeSub_two h2 hUr] at hle
      omega
  have hip : r.header.index_pos llr llc =
      some (r.header.min_x + (llc : ℚ) * r.header.cellsize,
            r.header.min_y + (llr : ℚ) * r.header.cellsize) := by
    simp only [EsriASCIIRasterHeader.index_pos, if_pos (And.intro hllrn hllcn)]
  dsimp only
  rw [hip]
  dsimp only
  by_cases hC : r.header.ncols = 1
  · rcases get_index_inbounds_cases r llr llc hllrn hllcn with ⟨v, r1, hg⟩ | ⟨r1, hg⟩
    · rw [hg]
      dsimp only
      have hh1 : r1.header = r.header := by
        have hfr := (get_index_frame r llr llc).1
        rw [hg] at hfr
        exact hfr
      have hob : r1.header.ncols ≤ llc + 1 := by
        rw [hh1, hC]
        omega
      rw [get_index_oob r1 llr (llc + 1) (Or.inr hob)]
    · rw [hg]
  · have hR : r.header.nrows = 1 := by
      rcases hdeg with h | h
      · exact absurd h hC
      · exact h
    have h2c : 2 ≤ r.header.ncols := by omega
    have hle : llc ≤ usizeSub r.header.ncols 2 := min_le_right _ _
    rw [usizeSub_two h2c hUc] at hle
    have hllcn1 : llc + 1 < r.header.ncols := by omega
    rcases get_index_inbounds_cases r llr llc hllrn hllcn with ⟨v, r1, hg⟩ | ⟨r1, hg⟩
    · rw [hg]
      dsimp only
      have hh1 : r1.header = r.header := by
        have hfr := (get_index_frame r llr llc).1
        rw [hg] at hfr
        exact hfr
      rcases get_index_inbounds_cases r1 llr (llc + 1)
          (by rw [hh1]; exact hllrn) (by rw [hh1]; exact hllcn1) with ⟨v2, r2, hg2⟩ | ⟨r2, hg2⟩
      · rw [hg2]
        dsimp only
        have hh2 : r2.header = r.header := by
          have hfr := (get_index_frame r1 llr (llc + 1)).1
          rw [hg2] at hfr
          rw [hfr, hh1]
        have hob : r2.header.nrows ≤ llr + 1 := by
          rw [hh2, hR]
          omega
        rw [get_index_oob r2 (llr + 1) llc (Or.inl hob)]
      · rw [hg2]
    · rw [hg]

theorem claim_C10_witness :
    (0 < tinyReader.header.ncols ∧ 0 < tinyReader.header.nrows ∧
     tinyReader.header.ncols < USIZE ∧ tinyReader.header.nrows < USIZE ∧
     (tinyReader.header.ncols = 1 ∨ tinyReader.header.nrows = 1) ∧
     tinyReader.header.min_x ≤ 0 ∧ (0 : ℚ) ≤ tinyReader.header.max_x ∧
     tinyReader.header.min_y ≤ 0 ∧ (0 : ℚ) ≤ tinyReader.header.max_y) ∧
    (get_interpolate tinyReader 0 0).1 = .panicked := by
  refine ⟨⟨by decide, by decide, by decide, by decide, Or.inl (by decide), ?_, ?_, ?_, ?_⟩, ?_⟩
  · norm_num [tinyReader, tinyHeader]
  · norm_num [tinyReader, tinyHeader, EsriASCIIRasterHeader.max_x]
  · norm_num [tinyReader, tinyHeader]
  · norm_num [tinyReader, tinyHeader, EsriASCIIRasterHeader.max_y]
  · exact claim_C10 tinyReader (by decide) (by decide) (by decide) (by decide)
      (Or.inl (by decide)) 0 0 (by norm_num [tinyReader, tinyHeader])
      (by norm_num [tinyReader, tinyHeader, EsriASCIIRasterHeader.max_x])
      (by norm_num [tinyReader, tinyHeader])
      (by norm_num [tinyReader, tinyHeader, EsriASCIIRasterHeader.max_y])
